/-
Verification of the workforce-management dashboard's aggregation logic.

The JavaScript under verification lives in two files:
  * `dashboard_charts.js` — `getStoredEntries`, `toDateOnly`, `inBetween`,
    `parseTime`, `aggregateForEmployee`, `aggregateForAll`;
  * a second (unnamed) script — its own copies of `getStoredEntries`,
    `toDateOnly`, `parseTime`, plus `inRange`, `hoursFor`,
    `aggregateByTaskGroup`.

Modelling conventions (shallow embedding):
  * JS numbers that appear in the data (hours, millisecond timestamps) are
    modelled as `ℚ` (exact arithmetic; the claims under study do not depend
    on binary floating-point rounding).
  * A `Date` produced by `parseTime` is `new Date()` (today) with
    `setHours(h, m, 0, 0)` applied; it is represented by its signed offset
    in milliseconds from today's midnight (`Int`).  `setHours` adds exactly
    `h` hours and `m` minutes to midnight, rolling into adjacent days for
    out-of-range components, which the offset representation captures.
  * A date-valued field is `DateRaw`: either a value that `new Date(·)`
    parses to some calendar day (`day d`, the day number, an `Int`) or a
    truthy value that parses to an Invalid Date (`invalid`).  An absent
    (undefined) field is `Option.none` around it.  `toDateOnly` then yields
    the day number or `none`.  Day arithmetic (`setDate(getDate() - n)`)
    is subtraction on day numbers.
  * `Number(s)` on the colon-separated components is modelled by
    `jsNumber`, covering optionally signed decimal integer literals and
    the empty/whitespace string (which JS converts to 0); other strings
    are mapped to `none` (NaN).  The claims quantify only over digit
    components, where this model is exact.
  * `localStorage.getItem` + `JSON.parse` for one key is modelled by
    `StoredVal`: the parse throws (`malformed`, caught by the `try`),
    yields a non-array value (`notArray`, which also covers a missing key,
    since `JSON.parse(null)` is `null`), or yields an array of entries.
  * The accumulator object `map` keeps string keys in insertion order
    (the task-group labels here are not array-index-like strings), and
    `Array.prototype.sort` is a stable sort, modelled by a stable
    insertion sort `sortDesc` on the comparator `(a, b) => b[1] - a[1]`.
-/
import Mathlib

namespace Dashboard

/-- JS whitespace test used by `String.prototype.trim` (restricted to the
ASCII whitespace characters that can occur in the data at hand). -/
def isWs (c : Char) : Bool :=
  c = ' ' ∨ c = '\t' ∨ c = '\n' ∨ c = '\r'

/-- `String.prototype.trim` on a character list: strip whitespace from both
ends. -/
def trimL (l : List Char) : List Char :=
  ((l.dropWhile isWs).reverse.dropWhile isWs).reverse

/-- Value of a list of decimal digit characters. -/
def digitsVal (l : List Char) : Nat :=
  l.foldl (fun a c => a * 10 + (c.toNat - 48)) 0

/-- `Number(s)` on a component string, restricted to the integer fragment:
after trimming, the empty string converts to `0`; an optionally signed
nonempty digit string converts to its value; anything else is NaN
(`none`).  (JS also accepts fractional / hex / scientific literals, which
never arise from the claims' inputs; they are conservatively NaN here.) -/
def jsNumberCore : List Char → Option Int
  | [] => some 0
  | c :: ds =>
    if c = '-' then
      if ds ≠ [] ∧ ds.all Char.isDigit then some (-(digitsVal ds : Int)) else none
    else if c = '+' then
      if ds ≠ [] ∧ ds.all Char.isDigit then some (digitsVal ds : Int) else none
    else if (c :: ds).all Char.isDigit then some (digitsVal (c :: ds) : Int)
    else none

/-- `Number(s)` first trims its argument, then converts. -/
def jsNumber (l : List Char) : Option Int :=
  jsNumberCore (trimL l)

/-- Combined model of `s.match(/am|pm/i)` and `s.replace(/am|pm/i, '')`:
scan left to right for the first occurrence of `am` or `pm`
(case-insensitively; at a given position `am` is tried before `pm`, as in
the regex alternation), returning which meridiem matched (`false` = am,
`true` = pm, `none` = no match) together with the string with that first
match removed. -/
def stripAmPm : List Char → Option Bool × List Char
  | [] => (none, [])
  | [c] => (none, [c])
  | c1 :: c2 :: rest =>
    if (c1 = 'a' ∨ c1 = 'A') ∧ (c2 = 'm' ∨ c2 = 'M') then (some false, rest)
    else if (c1 = 'p' ∨ c1 = 'P') ∧ (c2 = 'm' ∨ c2 = 'M') then (some true, rest)
    else
      let r := stripAmPm (c2 :: rest)
      (r.1, c1 :: r.2)

/-- `s.split(':')` on a character list (for the nonempty single-character
separator `:`; note `''.split(':')` is `['']`, i.e. the result is never
empty). -/
def splitColonL : List Char → List (List Char)
  | [] => [[]]
  | c :: rest =>
    if c = ':' then [] :: splitColonL rest
    else
      match splitColonL rest with
      | seg :: segs => (c :: seg) :: segs
      | [] => [[c]]

/-- The string pipeline of `parseTime`, before numeric conversion: trim the
input, extract and remove the first `am`/`pm` (case-insensitive), trim the
remainder and split it on `:`.  Returns the meridiem found and the
component strings. -/
def timeComponents (t : String) : Option Bool × List (List Char) :=
  let r := stripAmPm (trimL t.toList)
  (r.1, splitColonL (trimL r.2))

/-- `Number(h)` for the first colon-separated component of the input. -/
def hourComponent (t : String) : Option Int :=
  jsNumber ((timeComponents t).2.headD [])

/-- `Number(m)` for the second colon-separated component; NaN (`none`)
when the split produced fewer than two components (the destructuring
leaves `m` undefined). -/
def minuteComponent (t : String) : Option Int :=
  match (timeComponents t).2 with
  | _ :: m :: _ => jsNumber m
  | _ => none

/-- The 12-hour adjustments of `parseTime`, applied to the parsed hour:
`if (ap === 'pm' && h < 12) h += 12; if (ap === 'am' && h === 12) h = 0`. -/
def normHour (ap : Option Bool) (h : Int) : Int :=
  let h1 := if ap = some true ∧ h < 12 then h + 12 else h
  if ap = some false ∧ h1 = 12 then 0 else h1

/-- `parseTime` from the source: `null` for a falsy argument; otherwise
trim, extract and remove the first `am`/`pm` (case-insensitive), trim,
split on `:`, convert the first two components with `Number`; `null` if
either is NaN; apply the 12-hour adjustments; the result is today's date
with `setHours(h, m, 0, 0)`, represented as the millisecond offset
`h * 3600000 + m * 60000` from today's midnight. -/
def parseTime (t : String) : Option Int :=
  if t = "" then none
  else
    match hourComponent t, minuteComponent t with
    | some h, some m => some (normHour (timeComponents t).1 h * 3600000 + m * 60000)
    | _, _ => none

/-- A date-valued entry field, as seen by `new Date(·)`: either it parses
to a calendar day (identified by its day number) or it is an Invalid Date. -/
inductive DateRaw where
  | invalid : DateRaw
  | day : Int → DateRaw
deriving DecidableEq

/-- A time-tracking entry record.  Optional fields model the `undefined`
state of absent JS properties; `hoursWorked = some q` models a finite
number (NaN, ±Infinity and non-number values all fail the source's
`typeof · === 'number' && isFinite(·)` test and are collapsed into
`none`); `startTime`/`endTime` default to `""`, which — like `undefined` —
is falsy and makes `parseTime` return null. -/
structure Entry where
  employeeName : Option String := none
  EmployeeName : Option String := none
  employee : Option String := none
  Employee : Option String := none
  logDate : Option DateRaw := none
  date : Option DateRaw := none
  LogDate : Option DateRaw := none
  taskGroup : Option String := none
  TaskGroup : Option String := none
  group : Option String := none
  hoursWorked : Option ℚ := none
  startTime : String := ""
  endTime : String := ""
deriving DecidableEq

/-- JS `a || b` for string-valued fields: `a` unless it is falsy
(`undefined` or `""`). -/
def jsOrStr (a b : Option String) : Option String :=
  match a with
  | some s => if s = "" then b else some s
  | none => b

/-- JS `a || b` for date-valued fields: an absent field is falsy, a
present date-like value (a nonempty string in this app) is truthy. -/
def jsOrDate (a b : Option DateRaw) : Option DateRaw :=
  match a with
  | some d => some d
  | none => b

/-- `e.employeeName || e.EmployeeName || e.employee || e.Employee`;
`none` when every variant is falsy. -/
def resolveName (e : Entry) : Option String :=
  jsOrStr e.employeeName (jsOrStr e.EmployeeName (jsOrStr e.employee e.Employee))

/-- `e.logDate || e.date || e.LogDate`. -/
def resolveDate (e : Entry) : Option DateRaw :=
  jsOrDate e.logDate (jsOrDate e.date e.LogDate)

/-- `e.taskGroup || e.TaskGroup || e.group`; `none` when every variant is
falsy. -/
def resolvedTaskGroupField (e : Entry) : Option String :=
  jsOrStr e.taskGroup (jsOrStr e.TaskGroup e.group)

/-- `(e.taskGroup || e.TaskGroup || e.group || 'Unspecified')`: the
resolved field when it is truthy (present and nonempty), else the literal
default. -/
def rawTaskGroup (e : Entry) : String :=
  (jsOrStr (resolvedTaskGroupField e) (some "Unspecified")).getD ""

/-- The task-group key used by all three aggregators:
`(… || 'Unspecified').trim()`. -/
def taskGroupOf (e : Entry) : String :=
  ⟨trimL (rawTaskGroup e).toList⟩

/-- `toDateOnly` applied to a resolved date field: an absent field or an
Invalid Date gives `null`, otherwise the day-number of the date. -/
def toDateOnly : Option DateRaw → Option Int
  | none => none
  | some .invalid => none
  | some (.day d) => some d

/-- `inBetween(entryDate, start, end)` from the source: `false` when the
entry date does not parse; a falsy bound — or a bound that itself fails
`toDateOnly` — is open-ended; otherwise the inclusive day-number
comparison. -/
def inBetween (entryDate start stop : Option DateRaw) : Bool :=
  match toDateOnly entryDate with
  | none => false
  | some e =>
    let s := match start with
      | some d => toDateOnly (some d)
      | none => none
    let en := match stop with
      | some d => toDateOnly (some d)
      | none => none
    if s.elim false (fun sv => decide (e < sv)) then false
    else if en.elim false (fun ev => decide (ev < e)) then false
    else true

/-- The result of `JSON.parse(localStorage.getItem(k))` for one key. -/
inductive StoredVal where
  | malformed : StoredVal
  | notArray : StoredVal
  | arr : List Entry → StoredVal

/-- The browser state `getStoredEntries` reads: the per-key parse results,
and the two global fallback arrays (`none` when the global is not an
array). -/
structure Storage where
  item : String → StoredVal
  windowEntries : Option (List Entry) := none
  windowWorkEntries : Option (List Entry) := none

/-- The ordered list of storage keys tried by `getStoredEntries`. -/
def tryKeys : List String :=
  ["workEntries", "entries", "timeEntries", "fteEntries", "storedEntries"]

/-- The loop body of `getStoredEntries` over the remaining keys: return
the first key whose stored text parses to a nonempty array; a parse
exception is caught and the key skipped. -/
def firstStoredArray (st : Storage) : List String → Option (List Entry)
  | [] => none
  | k :: ks =>
    match st.item k with
    | .arr v => if v ≠ [] then some v else firstStoredArray st ks
    | _ => firstStoredArray st ks

/-- `getStoredEntries` from the source: try the five storage keys in
order, then `window.entries`, then `window.workEntries`, else `[]`. -/
def getStoredEntries (st : Storage) : List Entry :=
  match firstStoredArray st tryKeys with
  | some v => v
  | none =>
    match st.windowEntries with
    | some v => if v ≠ [] then v else
        match st.windowWorkEntries with
        | some w => if w ≠ [] then w else []
        | none => []
    | none =>
      match st.windowWorkEntries with
      | some w => if w ≠ [] then w else []
      | none => []

/-- The hours derivation shared verbatim by `aggregateForEmployee` and
`aggregateForAll`: a finite numeric `hoursWorked` is used as
`Math.max(0, hoursWorked)`; otherwise both time strings are parsed —
`none` (the entry is skipped) if either fails — and the elapsed hours
`(et - st) / 3600000`, plus 24 when negative, floored at 0, are used. -/
def hoursOf (e : Entry) : Option ℚ :=
  match e.hoursWorked with
  | some q => some (max 0 q)
  | none =>
    match parseTime e.startTime, parseTime e.endTime with
    | some st, some et =>
      let diff : ℚ := ((et - st : Int) : ℚ) / 3600000
      let diff2 := if diff < 0 then diff + 24 else diff
      some (max 0 diff2)
    | _, _ => none

/-- `hoursFor(entry)` from the second script: the same derivation, except
that a failed time parse yields `0` instead of skipping the entry. -/
def hoursFor (e : Entry) : ℚ :=
  match e.hoursWorked with
  | some q => max 0 q
  | none =>
    match parseTime e.startTime, parseTime e.endTime with
    | some st, some et =>
      let diff : ℚ := ((et - st : Int) : ℚ) / 3600000
      let diff2 := if diff < 0 then diff + 24 else diff
      max 0 diff2
    | _, _ => 0

/-- `map[tg] = (map[tg] || 0) + hrs` on an insertion-ordered association
list: add to the existing key, or append a new key at the end. -/
def addTo (m : List (String × ℚ)) (k : String) (v : ℚ) : List (String × ℚ) :=
  if m.any (fun p => p.1 = k) then
    m.map (fun p => if p.1 = k then (p.1, p.2 + v) else p)
  else m ++ [(k, v)]

/-- Stable insertion into a descending-by-hours list: the new pair goes
after every existing pair with greater-or-equal hours (the behaviour of a
stable sort under the comparator `(a, b) => b[1] - a[1]`). -/
def insertDesc (x : String × ℚ) : List (String × ℚ) → List (String × ℚ)
  | [] => [x]
  | y :: ys => if y.2 < x.2 then x :: y :: ys else y :: insertDesc x ys

/-- `Object.entries(map).sort((a, b) => b[1] - a[1])`: stable sort,
descending by the summed hours. -/
def sortDesc (l : List (String × ℚ)) : List (String × ℚ) :=
  l.foldl (fun acc x => insertDesc x acc) []

/-- The tail of `aggregateForEmployee`'s loop body, after the employee
filter: skip when the resolved date is not `inBetween` the bounds or the
hours derivation fails; otherwise accumulate under the task-group key. -/
def empBody (startDate endDate : Option DateRaw) (m : List (String × ℚ))
    (e : Entry) : List (String × ℚ) :=
  if ¬ inBetween (resolveDate e) startDate endDate then m
  else
    match hoursOf e with
    | none => m
    | some hrs => addTo m (taskGroupOf e) hrs

/-- The employee filter in front of `empBody`:
`if (employee && name !== employee) continue`. -/
def empStep (employee : Option String) (startDate endDate : Option DateRaw)
    (m : List (String × ℚ)) (e : Entry) : List (String × ℚ) :=
  match employee with
  | some emp =>
    if resolveName e ≠ some emp then m
    else empBody startDate endDate m e
  | none => empBody startDate endDate m e

/-- `aggregateForEmployee(employee, startDate, endDate)`: fold the stored
entries through `empStep` and sort the accumulated map descending by
hours. -/
def aggregateForEmployee (st : Storage) (employee : Option String)
    (startDate endDate : Option DateRaw) : List (String × ℚ) :=
  sortDesc ((getStoredEntries st).foldl (empStep employee startDate endDate) [])

/-- The lower bound `from` computed by `aggregateForAll` for a range
token, as a day number relative to `today` (`none` is the `null` default
of the `switch`). -/
def fromOf (range : String) (today : Int) : Option Int :=
  if range = "daily" then some today
  else if range = "weekly" then some (today - 6)
  else if range = "monthly" then some (today - 29)
  else none

/-- The per-entry loop body of `aggregateForAll`: for every token other
than `'all'` the entry date must be `inBetween(entryDate, from,
startOfDay)`; then the same hours derivation and accumulation as the
employee path. -/
def allStep (range : String) (today : Int)
    (m : List (String × ℚ)) (e : Entry) : List (String × ℚ) :=
  if range ≠ "all" ∧
      ¬ inBetween (resolveDate e) ((fromOf range today).map DateRaw.day)
        (some (DateRaw.day today)) then m
  else
    match hoursOf e with
    | none => m
    | some hrs => addTo m (taskGroupOf e) hrs

/-- `aggregateForAll(range)`: fold the stored entries through `allStep`
and sort descending by hours.  `today` is the day number of the current
date (the source's `startOfDay`). -/
def aggregateForAll (st : Storage) (today : Int) (range : String) :
    List (String × ℚ) :=
  sortDesc ((getStoredEntries st).foldl (allStep range today) [])

/-- The window test at the end of `inRange`:
`e && e >= from && e <= start` after `toDateOnly`. -/
def inRangeChk (entryDate : Option DateRaw) (lo hi : Int) : Bool :=
  match toDateOnly entryDate with
  | none => false
  | some e => lo ≤ e ∧ e ≤ hi

/-- `inRange(entryDate, range)` from the second script: for the three
known tokens, the entry date must parse and lie in the inclusive window;
for every other token the function returns `true` before even looking at
the date. -/
def inRange (entryDate : Option DateRaw) (today : Int) (range : String) : Bool :=
  if range = "daily" then inRangeChk entryDate today today
  else if range = "weekly" then inRangeChk entryDate (today - 6) today
  else if range = "monthly" then inRangeChk entryDate (today - 29) today
  else true

/-- `aggregateByTaskGroup(range)` from the second script: filter stored
entries by `inRange`, accumulate `hoursFor` (which zero-fills parse
failures) under the task-group key, and sort descending by hours. -/
def aggregateByTaskGroup (st : Storage) (today : Int) (range : String) :
    List (String × ℚ) :=
  let raw := getStoredEntries st
  let filtered := raw.filter (fun e => inRange (resolveDate e) today range)
  sortDesc (filtered.foldl (fun m e => addTo m (taskGroupOf e) (hoursFor e)) [])

/-! ### Spec-side definitions and concrete states used by the theorems -/

/-- The elapsed-hours derivation as the specification words it: the
difference of the two parsed timestamps in hours, plus 24 when negative
(overnight wrap). -/
def elapsedHours (st et : Int) : ℚ :=
  let d : ℚ := ((et - st : Int) : ℚ) / 3600000
  if d < 0 then d + 24 else d

/-- The specification's description of `getStoredEntries`, written
independently of the source's loop: among the parse results of the five
keys in order, the first non-empty array; else `window.entries` when it
is a non-empty array; else `window.workEntries` when it is a non-empty
array; else `[]`.  A malformed key contributes nothing (it is skipped,
never an error). -/
def getStoredEntriesSpec (st : Storage) : List Entry :=
  let nonEmpty : Option (List Entry) → Option (List Entry) := fun a =>
    match a with
    | some v => if v = [] then none else some v
    | none => none
  let keyArrays := tryKeys.filterMap fun k =>
    match st.item k with
    | .arr v => nonEmpty (some v)
    | _ => none
  ((keyArrays.head?.orElse fun _ => nonEmpty st.windowEntries).orElse fun _ =>
    nonEmpty st.windowWorkEntries).getD []

/-- The shape of a meridiem suffix in the `HH:MM am/pm` form: nothing
(`ap = none`), or an optional single space followed by `am` or `pm` in
any character case. -/
def suffixForm (sp : List Char) (ap : Option Bool) : Prop :=
  (ap = none ∧ sp = []) ∨
  (∃ c1 c2 pre, (pre = [] ∨ pre = [' ']) ∧ sp = pre ++ [c1, c2] ∧
    ((ap = some false ∧ (c1 = 'a' ∨ c1 = 'A') ∧ (c2 = 'm' ∨ c2 = 'M')) ∨
     (ap = some true ∧ (c1 = 'p' ∨ c1 = 'P') ∧ (c2 = 'm' ∨ c2 = 'M'))))

/-- A browser state whose `workEntries` key holds exactly the given
entries and whose other keys and globals are empty. -/
def mkStore (es : List Entry) : Storage :=
  { item := fun k => if k = "workEntries" then .arr es else .notArray }

/-- A one-entry store. -/
def singleStore (e : Entry) : Storage := mkStore [e]

/-- An entry in task group `G` with one stored hour and the given
(possibly absent or invalid) log date. -/
def datedEntry (dr : Option DateRaw) : Entry :=
  { taskGroup := some "G", hoursWorked := some 1, logDate := dr }

/-- An entry whose `hoursWorked` is not a number and whose `startTime`
does not parse: the parse-failure case of the hours derivation. -/
def badTimeEntry : Entry :=
  { taskGroup := some "G", startTime := "bad", endTime := "10:00" }

/-- An entry with usable hours but no date field at all. -/
def noDateEntry : Entry :=
  { taskGroup := some "G", hoursWorked := some 5 }

/-- An entry whose task-group field is a nonempty whitespace-only string. -/
def wsEntry : Entry :=
  { taskGroup := some "   ", hoursWorked := some 2 }

/-- The same whitespace-group entry with a valid date, for the
employee-scoped path. -/
def wsEntryDated : Entry :=
  { taskGroup := some "   ", hoursWorked := some 2, logDate := some (.day 0) }

/-- A browser state whose first storage key holds malformed JSON and
whose second key holds a usable non-empty array. -/
def malformedFirstStore : Storage :=
  { item := fun k =>
      if k = "workEntries" then .malformed
      else if k = "entries" then .arr [noDateEntry]
      else .notArray }

/-! ### Sortedness of `sortDesc` -/

/-- The descending-by-hours adjacency relation of the result lists. -/
def hoursGE (a b : String × ℚ) : Prop := b.2 ≤ a.2

theorem insertDesc_head? (x : String × ℚ) (l : List (String × ℚ)) :
    (insertDesc x l).head? = some x ∨ (insertDesc x l).head? = l.head? := by
  cases l with
  | nil => left; rfl
  | cons y ys =>
    by_cases h : y.2 < x.2
    · left; simp [insertDesc, h]
    · right; simp [insertDesc, h]

theorem chain'_insertDesc {x : String × ℚ} {l : List (String × ℚ)}
    (h : l.Chain' hoursGE) : (insertDesc x l).Chain' hoursGE := by
  induction l with
  | nil => simp [insertDesc]
  | cons y ys ih =>
    rw [insertDesc]
    by_cases hxy : y.2 < x.2
    · rw [if_pos hxy]
      exact List.Chain'.cons (le_of_lt hxy) h
    · rw [if_neg hxy]
      rcases List.chain'_cons'.mp h with ⟨hhd, hys⟩
      refine List.chain'_cons'.mpr ⟨?_, ih hys⟩
      intro b hb
      rcases insertDesc_head? x ys with h1 | h1
      · rw [h1, Option.mem_def, Option.some_inj] at hb
        subst hb
        exact le_of_not_lt hxy
      · rw [h1] at hb
        exact hhd b hb

theorem chain'_sortDesc (l : List (String × ℚ)) :
    (sortDesc l).Chain' hoursGE := by
  have key : ∀ (l : List (String × ℚ)) (acc : List (String × ℚ)),
      acc.Chain' hoursGE →
      (l.foldl (fun acc x => insertDesc x acc) acc).Chain' hoursGE := by
    intro l
    induction l with
    | nil => intro acc h; exact h
    | cons x xs ih =>
      intro acc h
      exact ih _ (chain'_insertDesc h)
  exact key l [] List.chain'_nil

/-! ### Character and trimming facts -/

theorem digit_ne_char {c x : Char} (h : c.isDigit = true)
    (hx : x.isDigit = false) : c ≠ x := by
  intro he
  subst he
  rw [h] at hx
  cases hx

theorem digit_not_ws {c : Char} (h : c.isDigit = true) : isWs c = false := by
  have h1 : c ≠ ' ' := digit_ne_char h (by decide)
  have h2 : c ≠ '\t' := digit_ne_char h (by decide)
  have h3 : c ≠ '\n' := digit_ne_char h (by decide)
  have h4 : c ≠ '\r' := digit_ne_char h (by decide)
  simp [isWs, h1, h2, h3, h4]

theorem dropWhile_ws_eq_self {l : List Char}
    (h : ∀ c ∈ l, isWs c = false) : l.dropWhile isWs = l := by
  cases l with
  | nil => rfl
  | cons c cs =>
    rw [List.dropWhile_cons, if_neg]
    simp [h c (by simp)]

theorem dropWhile_ws_nil {l : List Char}
    (h : ∀ c ∈ l, isWs c = true) : l.dropWhile isWs = [] :=
  List.dropWhile_eq_nil_iff.mpr h

theorem dropWhile_ws_append {sp l : List Char}
    (hsp : ∀ c ∈ sp, isWs c = true) :
    (sp ++ l).dropWhile isWs = l.dropWhile isWs := by
  induction sp with
  | nil => rfl
  | cons c cs ih =>
    rw [List.cons_append, List.dropWhile_cons, if_pos (by simp [hsp c (by simp)])]
    exact ih (fun d hd => hsp d (by simp [hd]))

theorem trimL_eq_self {l : List Char}
    (h : ∀ c ∈ l, isWs c = false) : trimL l = l := by
  unfold trimL
  rw [dropWhile_ws_eq_self h,
    dropWhile_ws_eq_self (fun c hc => h c (List.mem_reverse.mp hc)),
    List.reverse_reverse]

theorem trimL_append_ws {xs sp : List Char}
    (hx : ∀ c ∈ xs, isWs c = false) (hsp : ∀ c ∈ sp, isWs c = true) :
    trimL (xs ++ sp) = xs := by
  cases xs with
  | nil =>
    unfold trimL
    rw [List.nil_append, dropWhile_ws_nil hsp]
    rfl
  | cons c cs =>
    unfold trimL
    rw [List.cons_append, List.dropWhile_cons,
      if_neg (by simp [hx c (by simp)]), ← List.cons_append,
      List.reverse_append, dropWhile_ws_append
        (fun d hd => hsp d (List.mem_reverse.mp hd)),
      dropWhile_ws_eq_self
        (fun d hd => hx d (List.mem_reverse.mp hd)),
      List.reverse_reverse]

theorem dropWhile_ws_eq_self_of_head {l : List Char}
    (h : ∀ c ∈ l.head?, isWs c = false) : l.dropWhile isWs = l := by
  cases l with
  | nil => rfl
  | cons c cs =>
    rw [List.dropWhile_cons, if_neg]
    simp [h c (by simp)]

theorem trimL_eq_self_of_ends {l : List Char}
    (h1 : ∀ c ∈ l.head?, isWs c = false)
    (h2 : ∀ c ∈ l.getLast?, isWs c = false) : trimL l = l := by
  unfold trimL
  rw [dropWhile_ws_eq_self_of_head h1,
    dropWhile_ws_eq_self_of_head (by rw [List.head?_reverse]; exact h2),
    List.reverse_reverse]

/-! ### The `parseTime` pipeline on well-formed inputs -/

theorem stripAmPm_two (c1 c2 : Char) (rest : List Char) :
    stripAmPm (c1 :: c2 :: rest) =
      if (c1 = 'a' ∨ c1 = 'A') ∧ (c2 = 'm' ∨ c2 = 'M') then (some false, rest)
      else if (c1 = 'p' ∨ c1 = 'P') ∧ (c2 = 'm' ∨ c2 = 'M') then (some true, rest)
      else ((stripAmPm (c2 :: rest)).1, c1 :: (stripAmPm (c2 :: rest)).2) := rfl

theorem stripAmPm_append {xs : List Char}
    (hx : ∀ c ∈ xs, c ≠ 'a' ∧ c ≠ 'A' ∧ c ≠ 'p' ∧ c ≠ 'P') (ys : List Char) :
    stripAmPm (xs ++ ys) = ((stripAmPm ys).1, xs ++ (stripAmPm ys).2) := by
  induction xs with
  | nil => simp
  | cons c xs' ih =>
    have hc := hx c (by simp)
    have hxs' : ∀ d ∈ xs', d ≠ 'a' ∧ d ≠ 'A' ∧ d ≠ 'p' ∧ d ≠ 'P' :=
      fun d hd => hx d (by simp [hd])
    rw [List.cons_append]
    cases hxy : xs' ++ ys with
    | nil =>
      rcases List.append_eq_nil.mp hxy with ⟨rfl, rfl⟩
      rfl
    | cons c2 rest =>
      rw [stripAmPm_two, if_neg (by tauto), if_neg (by tauto), ← hxy, ih hxs']
      simp

theorem splitColonL_no_colon {l : List Char} (h : ∀ c ∈ l, c ≠ ':') :
    splitColonL l = [l] := by
  induction l with
  | nil => rfl
  | cons c cs ih =>
    rw [splitColonL, if_neg (h c (by simp)), ih (fun d hd => h d (by simp [hd]))]

theorem splitColonL_append {xs ys : List Char} (h : ∀ c ∈ xs, c ≠ ':') :
    splitColonL (xs ++ ':' :: ys) = xs :: splitColonL ys := by
  induction xs with
  | nil => rw [List.nil_append, splitColonL, if_pos rfl]
  | cons c cs ih =>
    rw [List.cons_append, splitColonL, if_neg (h c (by simp)),
      ih (fun d hd => h d (by simp [hd]))]

theorem jsNumber_digits {ds : List Char} (h0 : ds ≠ [])
    (hd : ∀ c ∈ ds, c.isDigit = true) :
    jsNumber ds = some (digitsVal ds : Int) := by
  have htrim : trimL ds = ds :=
    trimL_eq_self (fun c hc => digit_not_ws (hd c hc))
  rw [jsNumber, htrim]
  cases ds with
  | nil => exact absurd rfl h0
  | cons c cs =>
    have hcd := hd c (by simp)
    rw [jsNumberCore, if_neg (digit_ne_char hcd (by decide)),
      if_neg (digit_ne_char hcd (by decide)),
      if_pos (List.all_eq_true.mpr hd)]

theorem parseTime_digit_form {hs ms sp : List Char} {ap : Option Bool}
    (left : List Char)
    (hhs : hs ≠ []) (hh : ∀ c ∈ hs, c.isDigit = true)
    (hms : ms ≠ []) (hm : ∀ c ∈ ms, c.isDigit = true)
    (hstrip : stripAmPm (hs ++ ':' :: ms ++ sp) = (ap, hs ++ ':' :: ms ++ left))
    (hleft : ∀ c ∈ left, isWs c = true)
    (htrim : trimL (hs ++ ':' :: ms ++ sp) = hs ++ ':' :: ms ++ sp) :
    parseTime ⟨hs ++ ':' :: ms ++ sp⟩ =
      some (normHour ap (digitsVal hs : Int) * 3600000 +
        (digitsVal ms : Int) * 60000) := by
  have hne : (⟨hs ++ ':' :: ms ++ sp⟩ : String) ≠ "" := by
    cases hs with
    | nil => exact absurd rfl hhs
    | cons c cs =>
      intro hcontra
      have h2 : ((c :: cs) ++ ':' :: ms ++ sp : List Char) = "".data :=
        congrArg String.data hcontra
      have h3 : ("".data : List Char) = [] := rfl
      rw [h3] at h2
      simp at h2
  have htl : (⟨hs ++ ':' :: ms ++ sp⟩ : String).toList = hs ++ ':' :: ms ++ sp := rfl
  have hnocolon : ∀ c ∈ hs, c ≠ ':' :=
    fun c hc => digit_ne_char (hh c hc) (by decide)
  have hwsfree : ∀ c ∈ hs ++ ':' :: ms, isWs c = false := by
    intro c hc
    rcases List.mem_append.mp hc with hc | hc
    · exact digit_not_ws (hh c hc)
    · rcases List.mem_cons.mp hc with rfl | hc
      · decide
      · exact digit_not_ws (hm c hc)
  have htrim2 : trimL (hs ++ ':' :: ms ++ left) = hs ++ ':' :: ms := by
    have : hs ++ ':' :: ms ++ left = (hs ++ ':' :: ms) ++ left := by
      simp [List.append_assoc]
    rw [this]
    exact trimL_append_ws hwsfree hleft
  have hcomp : timeComponents ⟨hs ++ ':' :: ms ++ sp⟩ = (ap, [hs, ms]) := by
    rw [timeComponents, htl, htrim, hstrip]
    rw [htrim2, splitColonL_append hnocolon, splitColonL_no_colon
      (fun c hc => digit_ne_char (hm c hc) (by decide))]
  have hhour : hourComponent ⟨hs ++ ':' :: ms ++ sp⟩ = some (digitsVal hs : Int) := by
    rw [hourComponent, hcomp]
    exact jsNumber_digits hhs hh
  have hmin : minuteComponent ⟨hs ++ ':' :: ms ++ sp⟩ = some (digitsVal ms : Int) := by
    rw [minuteComponent, hcomp]
    exact jsNumber_digits hms hm
  rw [parseTime, if_neg hne, hhour, hmin, hcomp]

theorem getLast?_concat_two (l : List Char) (c1 c2 : Char) :
    (l ++ [c1, c2]).getLast? = some c2 := by
  rw [List.getLast?_append]
  rfl

theorem parseTime_suffix {hs ms sp : List Char} {ap : Option Bool}
    (hhs : hs ≠ []) (hh : ∀ c ∈ hs, c.isDigit = true)
    (hms : ms ≠ []) (hm : ∀ c ∈ ms, c.isDigit = true)
    (hsp : suffixForm sp ap) :
    parseTime ⟨hs ++ ':' :: ms ++ sp⟩ =
      some (normHour ap (digitsVal hs : Int) * 3600000 +
        (digitsVal ms : Int) * 60000) := by
  have hxsafe : ∀ c ∈ hs ++ ':' :: ms, c ≠ 'a' ∧ c ≠ 'A' ∧ c ≠ 'p' ∧ c ≠ 'P' := by
    intro c hc
    rcases List.mem_append.mp hc with hc | hc
    · exact ⟨digit_ne_char (hh c hc) (by decide), digit_ne_char (hh c hc) (by decide),
        digit_ne_char (hh c hc) (by decide), digit_ne_char (hh c hc) (by decide)⟩
    · rcases List.mem_cons.mp hc with rfl | hc
      · refine ⟨by decide, by decide, by decide, by decide⟩
      · exact ⟨digit_ne_char (hm c hc) (by decide), digit_ne_char (hm c hc) (by decide),
        digit_ne_char (hm c hc) (by decide), digit_ne_char (hm c hc) (by decide)⟩
  have hwsfree : ∀ c ∈ hs ++ ':' :: ms, isWs c = false := by
    intro c hc
    rcases List.mem_append.mp hc with hc | hc
    · exact digit_not_ws (hh c hc)
    · rcases List.mem_cons.mp hc with rfl | hc
      · decide
      · exact digit_not_ws (hm c hc)
  have hassoc : ∀ l : List Char, hs ++ ':' :: ms ++ l = (hs ++ ':' :: ms) ++ l := by
    intro l
    simp [List.append_assoc]
  rcases hsp with ⟨rfl, rfl⟩ | ⟨c1, c2, pre, hpre, rfl, hcase⟩
  · refine parseTime_digit_form [] hhs hh hms hm ?_ (by simp) ?_
    · rw [hassoc, stripAmPm_append hxsafe]
      rfl
    · rw [hassoc]
      exact trimL_eq_self (by simpa using hwsfree)
  · have hstrip2 : stripAmPm (pre ++ [c1, c2]) = (ap, pre) := by
      rcases hpre with rfl | rfl
      · rcases hcase with ⟨rfl, hc1, hc2⟩ | ⟨rfl, hc1, hc2⟩
        · rw [List.nil_append, stripAmPm_two, if_pos ⟨hc1, hc2⟩]
        · rw [List.nil_append, stripAmPm_two, if_neg, if_pos ⟨hc1, hc2⟩]
          rcases hc1 with rfl | rfl <;> simp
      · rcases hcase with ⟨rfl, hc1, hc2⟩ | ⟨rfl, hc1, hc2⟩
        · rw [show ([' '] ++ [c1, c2] : List Char) = ' ' :: c1 :: c2 :: [] from rfl,
            stripAmPm_two, if_neg (by simp), if_neg (by simp),
            stripAmPm_two, if_pos ⟨hc1, hc2⟩]
        · rw [show ([' '] ++ [c1, c2] : List Char) = ' ' :: c1 :: c2 :: [] from rfl,
            stripAmPm_two, if_neg (by simp), if_neg (by simp),
            stripAmPm_two, if_neg, if_pos ⟨hc1, hc2⟩]
          rcases hc1 with rfl | rfl <;> simp
    have hc2ws : isWs c2 = false := by
      rcases hcase with ⟨_, _, hc2⟩ | ⟨_, _, hc2⟩ <;>
        rcases hc2 with rfl | rfl <;> decide
    have hpre_ws : ∀ c ∈ pre, isWs c = true := by
      rcases hpre with rfl | rfl
      · simp
      · intro c hc
        rcases List.mem_singleton.mp hc with rfl
        decide
    refine parseTime_digit_form pre hhs hh hms hm ?_ hpre_ws ?_
    · rw [hassoc, stripAmPm_append hxsafe, hstrip2, ← hassoc]
    · refine trimL_eq_self_of_ends ?_ ?_
      · cases hs with
        | nil => exact absurd rfl hhs
        | cons c0 cs0 =>
          intro c hc
          simp only [List.cons_append, List.head?_cons, Option.mem_def,
            Option.some_inj] at hc
          subst hc
          exact digit_not_ws (hh c0 (by simp))
      · intro c hc
        have hre : hs ++ ':' :: ms ++ (pre ++ [c1, c2]) =
            (hs ++ ':' :: ms ++ pre) ++ [c1, c2] := by
          simp [List.append_assoc]
        rw [hre, getLast?_concat_two, Option.mem_def, Option.some_inj] at hc
        subst hc
        exact hc2ws

theorem parseTime_eq_none_iff (t : String) :
    parseTime t = none ↔
      t = "" ∨ hourComponent t = none ∨ minuteComponent t = none := by
  rw [parseTime]
  by_cases h : t = ""
  · simp [h]
  · rw [if_neg h]
    cases hh : hourComponent t <;> cases hm : minuteComponent t <;> simp [h]

/-! ### Hours-derivation facts -/

theorem hoursOf_numeric {e : Entry} {q : ℚ} (h : e.hoursWorked = some q) :
    hoursOf e = some (max 0 q) := by
  rw [hoursOf, h]

theorem hoursFor_numeric {e : Entry} {q : ℚ} (h : e.hoursWorked = some q) :
    hoursFor e = max 0 q := by
  rw [hoursFor, h]

theorem hoursOf_times {e : Entry} {s t : Int} (h0 : e.hoursWorked = none)
    (hs : parseTime e.startTime = some s) (ht : parseTime e.endTime = some t) :
    hoursOf e = some (max 0 (elapsedHours s t)) := by
  rw [hoursOf, h0, hs, ht]
  rfl

theorem hoursFor_times {e : Entry} {s t : Int} (h0 : e.hoursWorked = none)
    (hs : parseTime e.startTime = some s) (ht : parseTime e.endTime = some t) :
    hoursFor e = max 0 (elapsedHours s t) := by
  rw [hoursFor, h0, hs, ht]
  rfl

theorem hoursOf_parse_fail {e : Entry} (h0 : e.hoursWorked = none)
    (hp : parseTime e.startTime = none ∨ parseTime e.endTime = none) :
    hoursOf e = none := by
  rw [hoursOf, h0]
  rcases hp with hp | hp
  · rw [hp]
  · rw [hp]
    cases parseTime e.startTime <;> rfl

theorem hoursFor_parse_fail {e : Entry} (h0 : e.hoursWorked = none)
    (hp : parseTime e.startTime = none ∨ parseTime e.endTime = none) :
    hoursFor e = 0 := by
  rw [hoursFor, h0]
  rcases hp with hp | hp
  · rw [hp]
  · rw [hp]
    cases parseTime e.startTime <;> rfl

/-! ### Date-window facts -/

theorem inBetween_days (d lo hi : Int) :
    inBetween (some (.day d)) (some (.day lo)) (some (.day hi)) = true ↔
      lo ≤ d ∧ d ≤ hi := by
  rw [inBetween.eq_def]
  simp only [toDateOnly, Option.elim]
  by_cases h1 : d < lo
  · simp only [h1]
    simp
    omega
  · by_cases h2 : hi < d
    · simp only [h1, h2]
      simp
      omega
    · simp only [h1, h2]
      simp
      omega

theorem inBetween_open_lower (d hi : Int) :
    inBetween (some (.day d)) none (some (.day hi)) = true ↔ d ≤ hi := by
  rw [inBetween.eq_def]
  simp only [toDateOnly, Option.elim]
  by_cases h2 : hi < d
  · simp only [h2]
    simp
    omega
  · simp only [h2]
    simp
    omega

theorem inBetween_none_date {dr : Option DateRaw} (h : toDateOnly dr = none)
    (start stop : Option DateRaw) : inBetween dr start stop = false := by
  rw [inBetween.eq_def, h]

theorem inBetween_valid_open {dr : Option DateRaw} {d : Int}
    (h : toDateOnly dr = some d) : inBetween dr none none = true := by
  rw [inBetween.eq_def, h]
  rfl

/-! ### Store evaluation facts -/

theorem getStoredEntries_mkStore {es : List Entry} (h : es ≠ []) :
    getStoredEntries (mkStore es) = es := by
  rw [getStoredEntries]
  have h1 : firstStoredArray (mkStore es) tryKeys = some es := by
    simp [tryKeys, firstStoredArray, mkStore, h]
  rw [h1]

theorem aggregateForAll_single (e : Entry) (today : Int) (range : String) :
    aggregateForAll (singleStore e) today range =
      sortDesc (allStep range today [] e) := by
  rw [aggregateForAll, singleStore, getStoredEntries_mkStore (by simp),
    List.foldl_cons, List.foldl_nil]

theorem aggregateForEmployee_single (e : Entry)
    (employee : Option String) (sd ed : Option DateRaw) :
    aggregateForEmployee (singleStore e) employee sd ed =
      sortDesc (empStep employee sd ed [] e) := by
  rw [aggregateForEmployee, singleStore, getStoredEntries_mkStore (by simp),
    List.foldl_cons, List.foldl_nil]

theorem aggregateByTaskGroup_single (e : Entry) (today : Int) (range : String) :
    aggregateByTaskGroup (singleStore e) today range =
      if inRange (resolveDate e) today range then
        sortDesc (addTo [] (taskGroupOf e) (hoursFor e))
      else [] := by
  rw [aggregateByTaskGroup, singleStore, getStoredEntries_mkStore (by simp)]
  by_cases h : inRange (resolveDate e) today range
  · rw [if_pos h]
    simp [List.filter, h]
  · rw [if_neg h]
    simp only [List.filter, h]
    rfl

/-! ### Fold congruence for the path-equivalence claim -/

theorem foldl_congr_mem {α β : Type} {l : List α} {f g : β → α → β}
    (h : ∀ e ∈ l, ∀ m, f m e = g m e) :
    ∀ acc, l.foldl f acc = l.foldl g acc := by
  induction l with
  | nil => intro acc; rfl
  | cons x xs ih =>
    intro acc
    rw [List.foldl_cons, List.foldl_cons, h x (by simp)]
    exact ih (fun e he m => h e (by simp [he]) m) _

theorem empStep_null_eq_allStep {e : Entry} (today : Int)
    (hd : toDateOnly (resolveDate e) ≠ none) (m : List (String × ℚ)) :
    empStep none none none m e = allStep "all" today m e := by
  obtain ⟨d, hd'⟩ := Option.ne_none_iff_exists'.mp hd
  rw [empStep, empBody, if_neg (by rw [inBetween_valid_open hd']; simp),
    allStep, if_neg (by simp)]

theorem firstStoredArray_eq_head? (st : Storage) (ks : List String) :
    firstStoredArray st ks =
      (ks.filterMap fun k =>
        match st.item k with
        | .arr v => if v = [] then none else some v
        | _ => none).head? := by
  induction ks with
  | nil => rfl
  | cons k ks ih =>
    have hstep : firstStoredArray st (k :: ks) =
        match st.item k with
        | .arr v => if v ≠ [] then some v else firstStoredArray st ks
        | _ => firstStoredArray st ks := rfl
    rw [hstep, List.filterMap_cons]
    cases hv : st.item k with
    | malformed => simpa using ih
    | notArray => simpa using ih
    | arr v =>
      by_cases he : v = []
      · subst he
        simpa using ih
      · simp [he]

theorem getStoredEntries_eq_spec (st : Storage) :
    getStoredEntries st = getStoredEntriesSpec st := by
  rw [getStoredEntries, getStoredEntriesSpec]
  simp only [firstStoredArray_eq_head? st tryKeys]
  cases h1 : (tryKeys.filterMap fun k =>
      match st.item k with
      | .arr v => if v = [] then none else some v
      | _ => none).head? with
  | some v => simp [Option.orElse]
  | none =>
    cases h2 : st.windowEntries with
    | none =>
      cases h3 : st.windowWorkEntries with
      | none => simp [Option.orElse]
      | some w =>
        by_cases hw : w = [] <;> simp [Option.orElse, hw]
    | some v =>
      by_cases hv : v = []
      · cases h3 : st.windowWorkEntries with
        | none => simp [Option.orElse, hv]
        | some w =>
          by_cases hw : w = [] <;> simp [Option.orElse, hv, hw]
      · simp [Option.orElse, hv]

theorem aggregateForEmployee_null_eq_all (st : Storage) (today : Int)
    (h : ∀ e ∈ getStoredEntries st, toDateOnly (resolveDate e) ≠ none) :
    aggregateForEmployee st none none none = aggregateForAll st today "all" := by
  rw [aggregateForEmployee, aggregateForAll]
  congr 1
  exact foldl_congr_mem (fun e he m => empStep_null_eq_allStep today (h e he) m) []

/-! ### Task-group key facts -/

theorem trim_unspecified : (⟨trimL "Unspecified".toList⟩ : String) = "Unspecified" := rfl

theorem taskGroupOf_default {e : Entry}
    (h1 : e.taskGroup = none ∨ e.taskGroup = some "")
    (h2 : e.TaskGroup = none ∨ e.TaskGroup = some "")
    (h3 : e.group = none ∨ e.group = some "") :
    taskGroupOf e = "Unspecified" := by
  have hr : rawTaskGroup e = "Unspecified" := by
    rw [rawTaskGroup, resolvedTaskGroupField]
    rcases h1 with h1 | h1 <;> rcases h2 with h2 | h2 <;> rcases h3 with h3 | h3 <;>
      simp [jsOrStr, h1, h2, h3]
  rw [taskGroupOf, hr]
  exact trim_unspecified

theorem taskGroupOf_ws_only {e : Entry} {s : String}
    (h : resolvedTaskGroupField e = some s) (hne : s ≠ "")
    (hws : ∀ c ∈ s.toList, isWs c = true) :
    taskGroupOf e = "" := by
  have hr : rawTaskGroup e = s := by
    rw [rawTaskGroup, h]
    simp [jsOrStr, hne]
  rw [taskGroupOf, hr]
  have ht : trimL s.toList = [] := by
    unfold trimL
    rw [dropWhile_ws_nil hws]
    rfl
  rw [ht]

/-! ### Evaluation of the range-token path on one dated entry -/

theorem resolveDate_datedEntry (dr : Option DateRaw) :
    resolveDate (datedEntry dr) = dr := by
  cases dr <;> rfl

theorem allStep_datedEntry (range : String) (today : Int) (dr : Option DateRaw) :
    allStep range today [] (datedEntry dr) =
      if range ≠ "all" ∧
          ¬ inBetween dr ((fromOf range today).map DateRaw.day)
            (some (DateRaw.day today))
        then [] else [("G", 1)] := by
  rw [allStep, resolveDate_datedEntry]
  split
  · rfl
  · show addTo [] (taskGroupOf (datedEntry dr)) (max 0 1) = [("G", 1)]
    have hm : (max 0 1 : ℚ) = 1 := by norm_num
    rw [hm]
    rfl

theorem aggregateForAll_datedEntry_window (range : String) (hne : range ≠ "all")
    (today lo : Int) (hfrom : fromOf range today = some lo) (d : Int) :
    aggregateForAll (singleStore (datedEntry (some (.day d)))) today range =
      if lo ≤ d ∧ d ≤ today then [("G", 1)] else [] := by
  rw [aggregateForAll_single, allStep_datedEntry, hfrom]
  by_cases h : lo ≤ d ∧ d ≤ today
  · rw [if_neg, if_pos h]
    · rfl
    · intro hc
      exact hc.2 ((inBetween_days d lo today).mpr h)
  · rw [if_pos, if_neg h]
    · rfl
    · exact ⟨hne, fun hb => h ((inBetween_days d lo today).mp hb)⟩

theorem aggregateForAll_datedEntry_openLower (range : String) (hne : range ≠ "all")
    (today : Int) (hfrom : fromOf range today = none) (d : Int) :
    aggregateForAll (singleStore (datedEntry (some (.day d)))) today range =
      if d ≤ today then [("G", 1)] else [] := by
  rw [aggregateForAll_single, allStep_datedEntry, hfrom]
  by_cases h : d ≤ today
  · rw [if_neg, if_pos h]
    · rfl
    · intro hc
      exact hc.2 ((inBetween_open_lower d today).mpr h)
  · rw [if_pos, if_neg h]
    · rfl
    · exact ⟨hne, fun hb => h ((inBetween_open_lower d today).mp hb)⟩

theorem aggregateForAll_datedEntry_noDate (range : String) (hne : range ≠ "all")
    (today : Int) (dr : Option DateRaw) (hd : toDateOnly dr = none) :
    aggregateForAll (singleStore (datedEntry dr)) today range = [] := by
  rw [aggregateForAll_single, allStep_datedEntry,
    if_pos ⟨hne, by rw [inBetween_none_date hd]; exact Bool.false_ne_true⟩]
  rfl

theorem aggregateForAll_datedEntry_all (today : Int) (dr : Option DateRaw) :
    aggregateForAll (singleStore (datedEntry dr)) today "all" = [("G", 1)] := by
  rw [aggregateForAll_single, allStep_datedEntry, if_neg (by simp)]
  rfl

theorem inRangeChk_day (x lo hi : Int) :
    inRangeChk (some (.day x)) lo hi = true ↔ lo ≤ x ∧ x ≤ hi := by
  rw [inRangeChk]
  simp [toDateOnly]

theorem inRange_unknown_token {range : String}
    (h1 : range ≠ "daily") (h2 : range ≠ "weekly") (h3 : range ≠ "monthly")
    (dr : Option DateRaw) (today : Int) : inRange dr today range = true := by
  rw [inRange, if_neg h1, if_neg h2, if_neg h3]

/-! ## Claim theorems -/

/-- C1 (counterexample): the claim fails for `aggregateByTaskGroup`.  For
the concrete entry whose `hoursWorked` is not a number and whose
`startTime` does not parse, the pie-chart path does NOT exclude the
entry: `hoursFor` zero-fills it, so its task-group key `"G"` is created
with 0 hours, contradicting "the entry … does not create or zero-fill
its task-group key in every aggregation path". -/
theorem claim_C1_counterexample :
    badTimeEntry.hoursWorked = none ∧
    parseTime badTimeEntry.startTime = none ∧
    aggregateByTaskGroup (singleStore badTimeEntry) 0 "all" = [("G", 0)] :=
  ⟨rfl, by decide, by decide⟩

/-- C1 (amended): an entry whose `hoursWorked` is not a finite number and
whose start or end time fails to parse is excluded entirely — no key
created or zero-filled — by the two dashboard paths (`empStep` of
`aggregateForEmployee`, `allStep` of `aggregateForAll`, for every filter
setting and accumulator); in the pie-chart path, `hoursFor` instead
yields 0 for it, so `aggregateByTaskGroup` zero-fills its task-group
key. -/
theorem claim_C1_parse_fail_skip :
    ∀ (employee : Option String) (sd ed : Option DateRaw) (range : String)
      (today : Int) (m : List (String × ℚ)) (e : Entry),
      e.hoursWorked = none →
      parseTime e.startTime = none ∨ parseTime e.endTime = none →
      empStep employee sd ed m e = m ∧ allStep range today m e = m ∧
        hoursFor e = 0 := by
  intro employee sd ed range today m e h0 hp
  have hO : hoursOf e = none := hoursOf_parse_fail h0 hp
  have hbody : empBody sd ed m e = m := by
    rw [empBody]
    by_cases hdt : inBetween (resolveDate e) sd ed
    · rw [if_neg (by simpa using hdt), hO]
    · rw [if_pos (by simpa using hdt)]
  refine ⟨?_, ?_, hoursFor_parse_fail h0 hp⟩
  · rw [empStep.eq_def]
    cases employee with
    | none => exact hbody
    | some emp =>
      show (if resolveName e ≠ some emp then m else empBody sd ed m e) = m
      by_cases hname : resolveName e ≠ some emp
      · rw [if_pos hname]
      · rw [if_neg hname]
        exact hbody
  · rw [allStep]
    by_cases hcond : range ≠ "all" ∧
        ¬ inBetween (resolveDate e) ((fromOf range today).map DateRaw.day)
          (some (DateRaw.day today))
    · rw [if_pos hcond]
    · rw [if_neg hcond, hO]

/-- C1 witness: the parse-failure skip evaluated at the concrete bad
entry. -/
theorem claim_C1_witness :
    empStep none none none [] badTimeEntry = [] ∧
    allStep "all" 0 [] badTimeEntry = [] ∧
    hoursFor badTimeEntry = 0 :=
  claim_C1_parse_fail_skip none none none "all" 0 [] badTimeEntry rfl
    (Or.inl (by decide))

/-- C2 (counterexample): the two paths are not equivalent on every
stored-entry state.  For a store holding one entry with usable hours but
no date field, `aggregateForEmployee(null, null, null)` drops the entry
(`inBetween` returns false for an unparseable date even with open
bounds) while `aggregateForAll('all')` skips the date filter entirely
and keeps it. -/
theorem claim_C2_counterexample :
    aggregateForEmployee (singleStore noDateEntry) none none none = [] ∧
    aggregateForAll (singleStore noDateEntry) 0 "all" = [("G", 5)] ∧
    aggregateForEmployee (singleStore noDateEntry) none none none ≠
      aggregateForAll (singleStore noDateEntry) 0 "all" :=
  ⟨by decide, by decide, by decide⟩

/-- C2 (amended): on every stored-entry state in which each entry's
resolved date field parses, `aggregateForEmployee` with a null employee
and open date bounds returns exactly the result of `aggregateForAll`
with the `all` token. -/
theorem claim_C2_null_employee_eq_all :
    ∀ (st : Storage) (today : Int),
      (∀ e ∈ getStoredEntries st, toDateOnly (resolveDate e) ≠ none) →
      aggregateForEmployee st none none none = aggregateForAll st today "all" :=
  aggregateForEmployee_null_eq_all

/-- C2 witness: the equivalence evaluated on a concrete store whose
entry has a valid date. -/
theorem claim_C2_witness :
    aggregateForEmployee (mkStore [datedEntry (some (.day 3))]) none none none =
      aggregateForAll (mkStore [datedEntry (some (.day 3))]) 7 "all" :=
  claim_C2_null_employee_eq_all _ 7 (by decide)

/-- C3: hours derivation.  A finite numeric `hoursWorked` is used as
`max 0 hoursWorked` in both the skipping (`hoursOf`) and zero-filling
(`hoursFor`) derivations; otherwise the parsed start/end times give the
elapsed hours with the overnight +24 wrap (floored at 0, which the
spec's "hours are clamped to non-negative" invariant also requires);
`09:00`–`17:30` yields 8.5 and `22:00`–`02:00` yields 4. -/
theorem claim_C3_hours_derivation :
    (∀ (e : Entry) (q : ℚ), e.hoursWorked = some q →
      hoursOf e = some (max 0 q) ∧ hoursFor e = max 0 q) ∧
    (∀ (e : Entry) (s t : Int), e.hoursWorked = none →
      parseTime e.startTime = some s → parseTime e.endTime = some t →
      hoursOf e = some (max 0 (elapsedHours s t)) ∧
        hoursFor e = max 0 (elapsedHours s t)) ∧
    hoursOf { startTime := "09:00", endTime := "17:30" } = some (17/2 : ℚ) ∧
    hoursOf { startTime := "22:00", endTime := "02:00" } = some (4 : ℚ) := by
  refine ⟨fun e q h => ⟨hoursOf_numeric h, hoursFor_numeric h⟩,
    fun e s t h0 hs ht => ⟨hoursOf_times h0 hs ht, hoursFor_times h0 hs ht⟩,
    ?_, ?_⟩
  · have h := hoursOf_times (e := { startTime := "09:00", endTime := "17:30" })
      (s := 32400000) (t := 63000000) rfl (by decide) (by decide)
    rw [h]
    norm_num [elapsedHours]
  · have h := hoursOf_times (e := { startTime := "22:00", endTime := "02:00" })
      (s := 79200000) (t := 7200000) rfl (by decide) (by decide)
    rw [h]
    norm_num [elapsedHours]

/-- C3 witness: the numeric-hours clause evaluated at a concrete entry. -/
theorem claim_C3_witness :
    hoursOf { hoursWorked := some 3 } = some (max 0 3) ∧
    hoursFor { hoursWorked := some 3 } = max 0 3 :=
  claim_C3_hours_derivation.1 { hoursWorked := some 3 } 3 rfl

/-- C4 (counterexample): with a token that is none of
`daily`/`weekly`/`monthly`/`all`, `aggregateForAll` does NOT admit every
entry: it still runs `inBetween(entryDate, null, startOfDay)`, so an
entry dated after today is excluded (and would also be excluded with an
unparseable date), while the `all` token admits it.  This contradicts
"with `all` or any other (default) token, every entry with no date
filtering at all". -/
theorem claim_C4_counterexample :
    ("bogus" : String) ∉ (["daily", "weekly", "monthly", "all"] : List String) ∧
    aggregateForAll (singleStore (datedEntry (some (.day 1)))) 0 "bogus" = [] ∧
    aggregateForAll (singleStore (datedEntry (some (.day 1)))) 0 "all" =
      [("G", 1)] :=
  ⟨by decide, by decide, by decide⟩

/-- C4 (amended): semantics of the range tokens in `aggregateForAll`,
evaluated on a one-entry store: `daily` admits exactly entries dated
today, `weekly` the last 7 days including today, `monthly` the last 30
days including today, and `all` every entry unconditionally; any other
token is NOT unbounded there — it admits exactly the entries with a
parseable date not after today.  Only `inRange` of the pie-chart script
treats every unknown token as truly unbounded. -/
theorem claim_C4_range_semantics :
    ∀ (today d : Int) (dr : Option DateRaw),
      (aggregateForAll (singleStore (datedEntry (some (.day d)))) today "daily" =
        if d = today then [("G", 1)] else []) ∧
      (aggregateForAll (singleStore (datedEntry (some (.day d)))) today "weekly" =
        if today - 6 ≤ d ∧ d ≤ today then [("G", 1)] else []) ∧
      (aggregateForAll (singleStore (datedEntry (some (.day d)))) today "monthly" =
        if today - 29 ≤ d ∧ d ≤ today then [("G", 1)] else []) ∧
      (aggregateForAll (singleStore (datedEntry dr)) today "all" = [("G", 1)]) ∧
      (∀ range : String,
        range ∉ (["daily", "weekly", "monthly", "all"] : List String) →
        (aggregateForAll (singleStore (datedEntry (some (.day d)))) today range =
          if d ≤ today then [("G", 1)] else []) ∧
        aggregateForAll (singleStore (datedEntry (some .invalid))) today range = [] ∧
        aggregateForAll (singleStore (datedEntry none)) today range = [] ∧
        inRange dr today range = true) := by
  intro today d dr
  refine ⟨?_, ?_, ?_, aggregateForAll_datedEntry_all today dr, ?_⟩
  · rw [aggregateForAll_datedEntry_window "daily" (by decide)
      today today rfl d]
    by_cases hd2 : d = today
    · rw [if_pos (show today ≤ d ∧ d ≤ today by omega), if_pos hd2]
    · rw [if_neg (show ¬(today ≤ d ∧ d ≤ today) by omega), if_neg hd2]
  · exact aggregateForAll_datedEntry_window "weekly" (by decide)
      today (today - 6) rfl d
  · exact aggregateForAll_datedEntry_window "monthly" (by decide)
      today (today - 29) rfl d
  · intro range hr
    have h1 : range ≠ "daily" := fun h => hr (by simp [h])
    have h2 : range ≠ "weekly" := fun h => hr (by simp [h])
    have h3 : range ≠ "monthly" := fun h => hr (by simp [h])
    have h4 : range ≠ "all" := fun h => hr (by simp [h])
    have hfrom : fromOf range today = none := by
      rw [fromOf, if_neg h1, if_neg h2, if_neg h3]
    exact ⟨aggregateForAll_datedEntry_openLower range h4 today hfrom d,
      aggregateForAll_datedEntry_noDate range h4 today (some .invalid) rfl,
      aggregateForAll_datedEntry_noDate range h4 today none rfl,
      inRange_unknown_token h1 h2 h3 dr today⟩

/-- C4 witness: the unknown-token clause evaluated at a concrete token
and day. -/
theorem claim_C4_witness :
    aggregateForAll (singleStore (datedEntry (some (.day 0)))) 0 "quarterly" =
      [("G", 1)] ∧
    inRange (some (.day 5)) 0 "quarterly" = true := by
  have h := (claim_C4_range_semantics 0 0 (some (.day 5))).2.2.2.2 "quarterly"
    (by decide)
  refine ⟨?_, h.2.2.2⟩
  rw [h.1]
  norm_num

/-- C5: the `monthly` window boundary.  In both range-token code paths
(`aggregateForAll` and the pie-chart script's `inRange`), an entry dated
exactly 29 days before today is included and one dated exactly 30 days
before today is excluded. -/
theorem claim_C5_monthly_boundary :
    ∀ today : Int,
      aggregateForAll (singleStore (datedEntry (some (.day (today - 29)))))
        today "monthly" = [("G", 1)] ∧
      aggregateForAll (singleStore (datedEntry (some (.day (today - 30)))))
        today "monthly" = [] ∧
      inRange (some (.day (today - 29))) today "monthly" = true ∧
      inRange (some (.day (today - 30))) today "monthly" = false := by
  intro today
  have hmk : ∀ x : Int,
      aggregateForAll (singleStore (datedEntry (some (.day x)))) today "monthly" =
        if today - 29 ≤ x ∧ x ≤ today then [("G", 1)] else [] :=
    aggregateForAll_datedEntry_window "monthly" (by decide) today (today - 29) rfl
  have hir : ∀ x : Int, inRange (some (.day x)) today "monthly" =
      inRangeChk (some (.day x)) (today - 29) today := by
    intro x
    rw [inRange, if_neg (by decide), if_neg (by decide), if_pos rfl]
  refine ⟨?_, ?_, ?_, ?_⟩
  · rw [hmk, if_pos (by omega)]
  · rw [hmk, if_neg (by omega)]
  · rw [hir]
    exact (inRangeChk_day _ _ _).mpr (by omega)
  · rw [hir]
    rw [Bool.eq_false_iff]
    intro hb
    have := (inRangeChk_day _ _ _).mp hb
    omega

/-- C6: the time-parser contract.  For every input of the form `HH:MM`
or `HH:MM am/pm` (digit components of any length, meridiem in any
character case, with or without a separating space), `parseTime` returns
the same-day timestamp — modelled as the millisecond offset
`normHour(ap, H) * 3600000 + M * 60000` from today's midnight; on an
arbitrary string it returns null exactly when the string is falsy or the
hour or minute component is not numeric; and the hour normalization maps
`12am` to 0, `Npm` with `N < 12` to `N + 12`, and leaves `12pm` (and
every plain 24-hour value) unchanged. -/
theorem claim_C6_parseTime_contract :
    (∀ (hs ms sp : List Char) (ap : Option Bool),
      hs ≠ [] → (∀ c ∈ hs, c.isDigit = true) →
      ms ≠ [] → (∀ c ∈ ms, c.isDigit = true) →
      suffixForm sp ap →
      parseTime ⟨hs ++ ':' :: ms ++ sp⟩ =
        some (normHour ap (digitsVal hs : Int) * 3600000 +
          (digitsVal ms : Int) * 60000)) ∧
    (∀ t : String, parseTime t = none ↔
      t = "" ∨ hourComponent t = none ∨ minuteComponent t = none) ∧
    (∀ h : Int, normHour (some false) h = if h = 12 then 0 else h) ∧
    (∀ h : Int, normHour (some true) h = if h < 12 then h + 12 else h) ∧
    (∀ h : Int, normHour none h = h) := by
  refine ⟨fun hs ms sp ap h1 h2 h3 h4 h5 => parseTime_suffix h1 h2 h3 h4 h5,
    parseTime_eq_none_iff, ?_, ?_, ?_⟩
  · intro h
    simp [normHour]
  · intro h
    simp [normHour]
  · intro h
    simp [normHour]

/-- C6 witness: the parser contract evaluated at `09:30 pm` (hour
normalized to 21) and at a non-numeric hour component. -/
theorem claim_C6_witness :
    parseTime "09:30 pm" = some 77400000 ∧ parseTime "ab:10" = none := by
  constructor
  · have h := claim_C6_parseTime_contract.1 ['0', '9'] ['3', '0'] [' ', 'p', 'm']
      (some true) (by decide) (by decide) (by decide) (by decide)
      (Or.inr ⟨'p', 'm', [' '], Or.inr rfl, rfl,
        Or.inr ⟨rfl, Or.inl rfl, Or.inl rfl⟩⟩)
    have he : ("09:30 pm" : String) =
        ⟨['0', '9'] ++ ':' :: ['3', '0'] ++ [' ', 'p', 'm']⟩ := by decide
    rw [he, h]
    decide
  · exact (claim_C6_parseTime_contract.2.1 "ab:10").mpr (Or.inr (Or.inl (by decide)))

/-- C7: for every stored-entry state and every filter setting, the
sequence returned by each of the three aggregation paths is sorted
descending by hours: each adjacent pair satisfies
`result[i].hours >= result[i+1].hours` (the `hoursGE` chain). -/
theorem claim_C7_sorted_descending :
    ∀ (st : Storage) (employee : Option String) (sd ed : Option DateRaw)
      (today : Int) (range : String),
      (aggregateForEmployee st employee sd ed).Chain' hoursGE ∧
      (aggregateForAll st today range).Chain' hoursGE ∧
      (aggregateByTaskGroup st today range).Chain' hoursGE := by
  intro st employee sd ed today range
  exact ⟨chain'_sortDesc _, chain'_sortDesc _, chain'_sortDesc _⟩

/-- C8: `getStoredEntries` returns, for every browser state, exactly
what the specification describes — the first non-empty array among the
five ordered storage keys (a key whose stored text fails to parse
raising no error and being skipped), else `window.entries`, else
`window.workEntries`, else `[]` — and, concretely, a malformed first key
is skipped in favor of the next key. -/
theorem claim_C8_getStoredEntries_contract :
    (∀ st : Storage, getStoredEntries st = getStoredEntriesSpec st) ∧
    getStoredEntries malformedFirstStore = [noDateEntry] :=
  ⟨getStoredEntries_eq_spec, by decide⟩

/-- C9: the `"Unspecified"` default applies only when every resolved
task-group field is absent or the empty string; a non-empty
whitespace-only task-group value is truthy, so it is taken before
trimming and the entry is aggregated under the empty-string key `""` in
all three aggregation paths, not under `"Unspecified"`. -/
theorem claim_C9_whitespace_taskgroup :
    (∀ e : Entry,
      (e.taskGroup = none ∨ e.taskGroup = some "") →
      (e.TaskGroup = none ∨ e.TaskGroup = some "") →
      (e.group = none ∨ e.group = some "") →
      taskGroupOf e = "Unspecified") ∧
    (∀ (e : Entry) (s : String), resolvedTaskGroupField e = some s → s ≠ "" →
      (∀ c ∈ s.toList, isWs c = true) → taskGroupOf e = "") ∧
    aggregateByTaskGroup (singleStore wsEntry) 0 "all" = [("", 2)] ∧
    aggregateForAll (singleStore wsEntry) 0 "all" = [("", 2)] ∧
    aggregateForEmployee (singleStore wsEntryDated) none none none =
      [("", 2)] :=
  ⟨fun _ => taskGroupOf_default, fun _ _ => taskGroupOf_ws_only,
    by decide, by decide, by decide⟩

/-- C9 witness: the default and the whitespace key evaluated at concrete
entries. -/
theorem claim_C9_witness :
    taskGroupOf ({} : Entry) = "Unspecified" ∧ taskGroupOf wsEntry = "" :=
  ⟨claim_C9_whitespace_taskgroup.1 {} (Or.inl rfl) (Or.inl rfl) (Or.inl rfl),
    claim_C9_whitespace_taskgroup.2.1 wsEntry "   " rfl (by decide) (by decide)⟩

/-- C10: `parseTime` performs no range validation.  For every input
whose hour and minute parts are (arbitrarily large) digit strings it
returns a non-null timestamp — there is no hypothesis bounding the
values — including `25:00` (25 hours past midnight, rolling into the
next day) and `10:99`; such values then flow into the derived duration
instead of skipping the entry, e.g. `25:00`–`26:30` contributes 1.5
hours. -/
theorem claim_C10_no_range_validation :
    (∀ hs ms : List Char, hs ≠ [] → (∀ c ∈ hs, c.isDigit = true) →
      ms ≠ [] → (∀ c ∈ ms, c.isDigit = true) →
      parseTime ⟨hs ++ ':' :: ms⟩ =
        some ((digitsVal hs : Int) * 3600000 + (digitsVal ms : Int) * 60000)) ∧
    parseTime "25:00" = some 90000000 ∧
    parseTime "10:99" = some 41940000 ∧
    hoursOf { startTime := "25:00", endTime := "26:30" } = some (3/2 : ℚ) := by
  refine ⟨?_, by decide, by decide, ?_⟩
  · intro hs ms h1 h2 h3 h4
    have h := parseTime_suffix h1 h2 h3 h4
      (show suffixForm [] none from Or.inl ⟨rfl, rfl⟩)
    rw [List.append_nil] at h
    rw [h]
    simp [normHour]
  · have h := hoursOf_times (e := { startTime := "25:00", endTime := "26:30" })
      (s := 90000000) (t := 95400000) rfl (by decide) (by decide)
    rw [h]
    norm_num [elapsedHours]

/-- C10 witness: the unbounded clause evaluated at single-digit
components. -/
theorem claim_C10_witness :
    parseTime "7:5" = some 25500000 := by
  have h := claim_C10_no_range_validation.1 ['7'] ['5']
    (by decide) (by decide) (by decide) (by decide)
  have he : ("7:5" : String) = ⟨['7'] ++ ':' :: ['5']⟩ := by decide
  rw [he, h]
  decide

end Dashboard
